import Mathlib

/-!
Verification of the `Blob` record abstraction of vossibility-collector
(`src/ghollector/blob.go`), shallowly embedded in Lean.

A `Json` value models the dynamic document tree held by `simplejson.Json`
(objects are association lists over string keys; numbers are restricted to
integers, the only numeric values the development exercises).  A `Blob`
models the Go `Blob` struct; Go methods that mutate the receiver in place
are embedded as functions returning the post-state, and a method returning
`error` returns an explicit error component alongside the post-state.
-/

set_option autoImplicit false

namespace Voss

/-- The document tree wrapped by `simplejson.Json`: JSON objects are kept as
association lists keyed by strings, and JSON numbers are modelled as
integers (`encoding/json` with `UseNumber` keeps the literal; the claims
only involve integer literals, printed identically). -/
inductive Json where
  | null : Json
  | bool : Bool → Json
  | num : Int → Json
  | str : String → Json
  | arr : List Json → Json
  | obj : List (String × Json) → Json

/-- Lookup of a key in an object field list (Go map indexing `m[key]`). -/
def objLookup : List (String × Json) → String → Option Json
  | [], _ => none
  | (k, v) :: rest, key => if k = key then some v else objLookup rest key

/-- Setting a key in an object field list (Go map assignment `m[key] = v`). -/
def objSet : List (String × Json) → String → Json → List (String × Json)
  | [], key, v => [(key, v)]
  | (k, w) :: rest, key, v =>
    if k = key then (k, v) :: rest else (k, w) :: objSet rest key v

/-- `simplejson.Json.Get`: on an object with the key present, the wrapped
value; otherwise a wrapper around `nil`, which the model conflates with
`Json.null` (Go represents both JSON `null` and a failed lookup as `nil`
data). -/
def Json.get (j : Json) (key : String) : Json :=
  match j with
  | .obj fields =>
    match objLookup fields key with
    | some v => v
    | none => .null
  | _ => .null

/-- `simplejson.Json.GetPath`: iterated `Get` along a branch. -/
def Json.getPath (j : Json) : List String → Json
  | [] => j
  | k :: rest => (j.get k).getPath rest

/-- `simplejson.Json.CheckGet`: the value and whether the (top-level) key is
present; `none` models `ok == false`. -/
def Json.checkGet (j : Json) (key : String) : Option Json :=
  match j with
  | .obj fields => objLookup fields key
  | _ => none

/-- The field list of a `Json` value when it is an object, else `[]`: models
the step of `simplejson.Json.SetPath` that replaces non-map data with a
fresh empty map before inserting a branch. -/
def Json.objFieldsOr : Json → List (String × Json)
  | .obj fields => fields
  | _ => []

/-- `simplejson.Json.SetPath`: sets `branch` inside the value to `val`,
creating intermediate object nodes as needed and replacing any non-object
node (including a non-object final target's parent entry) with a fresh
object along the way; the final key is overwritten unconditionally. -/
def Json.setPath (j : Json) (branch : List String) (val : Json) : Json :=
  match branch with
  | [] => val
  | k :: rest =>
    match rest with
    | [] => .obj (objSet j.objFieldsOr k val)
    | _ =>
      let fields := j.objFieldsOr
      let child : Json :=
        match objLookup fields k with
        | some (Json.obj cf) => Json.obj cf
        | _ => Json.obj []
      .obj (objSet fields k (child.setPath rest val))

/-- Go `strings.Split(s, ".")` on the character level, specialised to the
one-character separator used by `Blob.Push` and `Blob.Snapshot`. -/
def splitDotChars : List Char → List (List Char)
  | [] => [[]]
  | c :: rest =>
    if c = '.' then [] :: splitDotChars rest
    else
      match splitDotChars rest with
      | [] => [[c]]
      | g :: gs => (c :: g) :: gs

/-- Go `strings.Split(key, ".")` as used in `blob.go`. -/
def goSplitDot (s : String) : List String :=
  (splitDotChars s.data).map fun cs => String.mk cs

mutual

/-- Go `fmt.Sprintf("%v", x)` on the dynamic value wrapped by a `Json`
(`Interface()` in the source): `nil` prints `"<nil>"`, strings print raw,
numbers print their literal, slices print space-separated in brackets and
maps print `map[k:v ...]` (the model prints object entries in stored order,
the association-list counterpart of a Go map). -/
def goFormat : Json → String
  | .null => "<nil>"
  | .bool true => "true"
  | .bool false => "false"
  | .num n => toString n
  | .str s => s
  | .arr xs => "[" ++ String.intercalate " " (goFormatList xs) ++ "]"
  | .obj fs => "map[" ++ String.intercalate " " (goFormatFields fs) ++ "]"

/-- `goFormat` mapped over array elements. -/
def goFormatList : List Json → List String
  | [] => []
  | x :: rest => goFormat x :: goFormatList rest

/-- `goFormat` mapped over object entries, printed `key:value`. -/
def goFormatFields : List (String × Json) → List String
  | [] => []
  | (k, v) :: rest => (k ++ ":" ++ goFormat v) :: goFormatFields rest

end

/-- JSON whitespace accepted between tokens by the `encoding/json` scanner. -/
def isJsonWs (c : Char) : Bool :=
  c == ' ' || c == '\t' || c == '\n' || c == '\r'

/-- Drop leading JSON whitespace. -/
def skipWs : List Char → List Char
  | [] => []
  | c :: rest => if isJsonWs c then skipWs rest else c :: rest

/-- Value of a hexadecimal digit. -/
def hexVal (c : Char) : Option Nat :=
  if c.isDigit then some (c.toNat - 48)
  else if 'a' ≤ c ∧ c ≤ 'f' then some (c.toNat - 87)
  else if 'A' ≤ c ∧ c ≤ 'F' then some (c.toNat - 55)
  else none

/-- Single-character JSON string escapes. -/
def escChar : Char → Option Char
  | '"' => some '"'
  | '\\' => some '\\'
  | '/' => some '/'
  | 'b' => some (Char.ofNat 8)
  | 'f' => some (Char.ofNat 12)
  | 'n' => some '\n'
  | 'r' => some '\r'
  | 't' => some '\t'
  | _ => none

/-- Body of a JSON string after the opening quote: characters accumulated
in reverse until the closing quote; `none` on an unterminated string or a
bad escape.  (`\u` escapes take the code point directly, ignoring
surrogate pairing.) -/
def parseStringBody : List Char → List Char → Option (String × List Char)
  | [], _ => none
  | '"' :: rest, acc => some (String.mk acc.reverse, rest)
  | '\\' :: rest, acc =>
    match rest with
    | 'u' :: h1 :: h2 :: h3 :: h4 :: rest2 =>
      match hexVal h1, hexVal h2, hexVal h3, hexVal h4 with
      | some a, some b, some c, some d =>
        parseStringBody rest2 (Char.ofNat (((a * 16 + b) * 16 + c) * 16 + d) :: acc)
      | _, _, _, _ => none
    | e :: rest2 =>
      match escChar e with
      | some c => parseStringBody rest2 (c :: acc)
      | none => none
    | [] => none
  | c :: rest, acc => parseStringBody rest (c :: acc)

/-- Longest decimal-digit run at the head of the input. -/
def takeDigits : List Char → List Char × List Char
  | [] => ([], [])
  | c :: rest =>
    if c.isDigit then
      let p := takeDigits rest
      (c :: p.1, p.2)
    else ([], c :: rest)

/-- Numeric value of a decimal-digit run. -/
def digitsToNat (ds : List Char) : Nat :=
  ds.foldl (fun acc c => acc * 10 + (c.toNat - 48)) 0

/-- An integer `Json` number with an optional sign applied. -/
def mkNum (neg : Bool) (n : Nat) : Json :=
  if neg then Json.num (-(n : Int)) else Json.num n

/-- A JSON number literal: optional minus, digits without a redundant
leading zero; fraction and exponent forms are outside the modelled
integer fragment and rejected. -/
def parseNumber (s : List Char) : Option (Json × List Char) :=
  let signed : Bool × List Char :=
    match s with
    | '-' :: rest => (true, rest)
    | _ => (false, s)
  let p := takeDigits signed.2
  match p.1 with
  | [] => none
  | d :: ds =>
    if d = '0' ∧ ds ≠ [] then none
    else
      match p.2 with
      | c :: _ =>
        if c = '.' ∨ c = 'e' ∨ c = 'E' then none
        else some (mkNum signed.1 (digitsToNat (d :: ds)), p.2)
      | [] => some (mkNum signed.1 (digitsToNat (d :: ds)), p.2)

mutual

/-- One JSON value starting at the (whitespace-skipped) input, returning
the remaining characters; fuel bounds recursion depth and is sized
generously by the caller. -/
def parseValue : Nat → List Char → Option (Json × List Char)
  | 0, _ => none
  | fuel + 1, s =>
    match skipWs s with
    | [] => none
    | c :: rest =>
      if c = '{' then parseMembersStart fuel rest
      else if c = '[' then parseElemsStart fuel rest
      else if c = '"' then
        match parseStringBody rest [] with
        | some (t, r) => some (Json.str t, r)
        | none => none
      else if c = 't' then
        match rest with
        | 'r' :: 'u' :: 'e' :: r => some (Json.bool true, r)
        | _ => none
      else if c = 'f' then
        match rest with
        | 'a' :: 'l' :: 's' :: 'e' :: r => some (Json.bool false, r)
        | _ => none
      else if c = 'n' then
        match rest with
        | 'u' :: 'l' :: 'l' :: r => some (Json.null, r)
        | _ => none
      else parseNumber (c :: rest)

/-- Object body right after `{`: either an immediate `}` or a member list. -/
def parseMembersStart : Nat → List Char → Option (Json × List Char)
  | 0, _ => none
  | fuel + 1, s =>
    match skipWs s with
    | '}' :: r => some (Json.obj [], r)
    | t => parseMembers fuel t []

/-- Members of an object: `"key" : value` pairs separated by commas,
accumulated with last-wins map assignment, until `}`. -/
def parseMembers : Nat → List Char → List (String × Json) →
    Option (Json × List Char)
  | 0, _, _ => none
  | fuel + 1, s, acc =>
    match skipWs s with
    | '"' :: rest =>
      match parseStringBody rest [] with
      | some (key, r1) =>
        match skipWs r1 with
        | ':' :: r2 =>
          match parseValue fuel r2 with
          | some (v, r3) =>
            match skipWs r3 with
            | ',' :: r4 => parseMembers fuel r4 (objSet acc key v)
            | '}' :: r4 => some (Json.obj (objSet acc key v), r4)
            | _ => none
          | none => none
        | _ => none
      | none => none
    | _ => none

/-- Array body right after `[`: either an immediate `]` or an element list. -/
def parseElemsStart : Nat → List Char → Option (Json × List Char)
  | 0, _ => none
  | fuel + 1, s =>
    match skipWs s with
    | ']' :: r => some (Json.arr [], r)
    | t => parseElems fuel t []

/-- Elements of an array, accumulated in reverse, until `]`. -/
def parseElems : Nat → List Char → List Json → Option (Json × List Char)
  | 0, _, _ => none
  | fuel + 1, s, acc =>
    match parseValue fuel s with
    | some (v, r1) =>
      match skipWs r1 with
      | ',' :: r2 => parseElems fuel r2 (v :: acc)
      | ']' :: r2 => some (Json.arr (v :: acc).reverse, r2)
      | _ => none
    | none => none

end

/-- Models the external JSON decoding done by `simplejson.NewJson`
(an `encoding/json` decoder with `UseNumber`): skip leading whitespace,
decode a single JSON value, ignore anything after it; `none` on malformed
input. -/
def parseJson (s : String) : Option Json :=
  match parseValue (2 * s.length + 8) s.data with
  | some (v, _) => some v
  | none => none

/-- `MetadataType`: key for the type metadata attribute. -/
def MetadataType : String := "_type"

/-- `MetadataSnapshotId`: key for the snapshot-id metadata attribute. -/
def MetadataSnapshotId : String := "_snapshot_id"

/-- `MetadataSnapshotField`: key for the snapshot-field metadata attribute. -/
def MetadataSnapshotField : String := "_snapshot_field"

/-- The two error values `pushSpecialAttribute` can return: Go builds them
with `fmt.Errorf("invalid metadata field %q", key)` and
`fmt.Errorf("bad value %v for %q attribute (expected string)", value, key)`;
the model keeps them as tagged values carrying the offending key. -/
inductive PushError where
  | unknownMetadataKey (key : String) : PushError
  | invalidMetadataValueType (key : String) : PushError
  deriving DecidableEq

/-- The Go `Blob` struct.  The source field `Type` is spelled `type_` here
because `Type` is reserved in Lean; `Timestamp` (a `time.Time`) is an
opaque clock value modelled as `Nat`. -/
structure Blob where
  Data : Json
  Id : String
  SnapshotId : String
  SnapshotField : String
  Timestamp : Nat
  type_ : String

/-- `NewBlobFromJson(event, id, json)`.  Go sets `Timestamp: time.Now()`;
the current clock value is passed explicitly as `now`. -/
def NewBlobFromJson (event id : String) (json : Json) (now : Nat) : Blob :=
  { Data := json
    Id := id
    SnapshotId := ""
    SnapshotField := ""
    Timestamp := now
    type_ := event }

/-- `NewBlob(event, id)`: an empty blob; `simplejson.New()` wraps an empty
`map[string]interface{}`. -/
def NewBlob (event id : String) (now : Nat) : Blob :=
  NewBlobFromJson event id (Json.obj []) now

/-- `Blob.HasAttribute`: whether `CheckGet` reports the key present. -/
def Blob.HasAttribute (b : Blob) (attr : String) : Bool :=
  (b.Data.checkGet attr).isSome

/-- `Blob.pushSpecialAttribute`.  Go builds `metaFields`, a map from the
three metadata keys to pointers at the corresponding `Blob` fields, fails
with the unknown-key error when `key` is not in the map, fails with the
bad-value error when `value` is not a string, and otherwise writes the
string through the pointer.  The model returns the error component next to
the post-state blob (the receiver is mutated only on success). -/
def Blob.pushSpecialAttribute (b : Blob) (key : String) (value : Json) :
    Option PushError × Blob :=
  let metaFields : Option (String → Blob) :=
    if key = MetadataType then some fun s => { b with type_ := s }
    else if key = MetadataSnapshotId then some fun s => { b with SnapshotId := s }
    else if key = MetadataSnapshotField then some fun s => { b with SnapshotField := s }
    else none
  match metaFields with
  | none => (some (.unknownMetadataKey key), b)
  | some target =>
    match value with
    | .str strValue => (none, target strValue)
    | _ => (some (.invalidMetadataValueType key), b)

/-- Go `strings.HasPrefix(s, "_")`: whether the first character is `'_'`. -/
def startsWithUnderscore (s : String) : Bool :=
  match s.data with
  | c :: _ => c == '_'
  | [] => false

/-- `Blob.Push`: keys starting with `"_"` are routed to
`pushSpecialAttribute`; any other key is split on `"."` and `SetPath` into
the document. -/
def Blob.Push (b : Blob) (key : String) (value : Json) :
    Option PushError × Blob :=
  if startsWithUnderscore key then b.pushSpecialAttribute key value
  else (none, { b with Data := b.Data.setPath (goSplitDot key) value })

/-- `Blob.Snapshot`: `nil` (here `none`) when either snapshot metadata
field is empty, otherwise a new blob whose data is the `SnapshotField`
sub-attribute of the data, whose id is the `%v`-formatting of the value at
the dotted `SnapshotId` path inside that sub-attribute, and which inherits
`Timestamp` and `Type`; the remaining fields of the Go struct literal are
zero-valued. -/
def Blob.Snapshot (b : Blob) : Option Blob :=
  if b.SnapshotId = "" ∨ b.SnapshotField = "" then none
  else
    let snapshot := b.Data.get b.SnapshotField
    let snapshotId := goFormat (snapshot.getPath (goSplitDot b.SnapshotId))
    some { Data := snapshot
           Id := snapshotId
           SnapshotId := ""
           SnapshotField := ""
           Timestamp := b.Timestamp
           type_ := b.type_ }

/-- `NewBlobFromPayload(event, id, payload)`: decodes the payload bytes
via the modelled JSON decoder; `none` models the `(nil, err)` return when
decoding fails. -/
def NewBlobFromPayload (event id : String) (payload : String) (now : Nat) :
    Option Blob :=
  match parseJson payload with
  | none => none
  | some d => some (NewBlobFromJson event id d now)

/-- Path lookup that distinguishes a missing binding from a stored `null`:
`checkGet` iterated along a branch; `none` when some step of the dotted
path is not present. -/
def Json.getPathOpt (j : Json) : List String → Option Json
  | [] => some j
  | k :: rest =>
    match j.checkGet k with
    | some v => v.getPathOpt rest
    | none => none

/-- Blobs reachable from one of the three constructors by a sequence of
`Push` calls (successful or not — `Push` always yields the post-state). -/
inductive Reachable : Blob → Prop where
  | new (event id : String) (now : Nat) : Reachable (NewBlob event id now)
  | fromJson (event id : String) (json : Json) (now : Nat) :
      Reachable (NewBlobFromJson event id json now)
  | fromPayload (event id payload : String) (now : Nat) (b : Blob)
      (h : NewBlobFromPayload event id payload now = some b) : Reachable b
  | push (b : Blob) (key : String) (value : Json) (h : Reachable b) :
      Reachable (b.Push key value).2

/-- The spec's pairing invariant on the two snapshot metadata fields:
both empty or both non-empty. -/
def bothOrNeither (b : Blob) : Prop :=
  (b.SnapshotId = "" ∧ b.SnapshotField = "") ∨
    (b.SnapshotId ≠ "" ∧ b.SnapshotField ≠ "")

instance (b : Blob) : Decidable (bothOrNeither b) := by
  unfold bothOrNeither
  infer_instance

/-- The heap effect, under Go's aliasing, of one `Push` applied to the
record returned by `Snapshot`, immediately after snapshotting (so the
extracted sub-document occurs in the parent document exactly at
`SnapshotField`): `Get` returns a `*Json` wrapper sharing the underlying
`map[string]interface{}` with the parent document, and `SetPath` mutates
that map in place when the shared data is a map, while non-map data is
replaced inside the snapshot's own wrapper only (and a reserved key never
touches the data).  Returns the pair (parent document, snapshot document)
after the push, or `none` when no snapshot exists. -/
def snapshotThenPushSnap (b : Blob) (key : String) (value : Json) :
    Option (Json × Json) :=
  (b.Snapshot).map fun snap =>
    if startsWithUnderscore key then (b.Data, snap.Data)
    else
      let snapData := snap.Data.setPath (goSplitDot key) value
      match snap.Data with
      | Json.obj _ => (b.Data.setPath [b.SnapshotField] snapData, snapData)
      | _ => (b.Data, snapData)

/-- The concrete push_event record of the spec's scenario: kind
`push_event`, id `1`, document
`\x7b"repository":\x7b"id":42\x7d,"ref":"refs/heads/main"\x7d`,
snapshot-field `repository`, snapshot-id `id`. -/
def pushEventBlob : Blob :=
  { Data := Json.obj
      [("repository", Json.obj [("id", Json.num 42)]),
       ("ref", Json.str "refs/heads/main")]
    Id := "1"
    SnapshotId := "id"
    SnapshotField := "repository"
    Timestamp := 7
    type_ := "push_event" }

/-- The snapshot record derived from `pushEventBlob`. -/
def pushEventSnap : Blob :=
  { Data := Json.obj [("id", Json.num 42)]
    Id := "42"
    SnapshotId := ""
    SnapshotField := ""
    Timestamp := 7
    type_ := "push_event" }

/-- `pushEventBlob`'s document after a push of `name = "x"` on its
snapshot record leaks through the shared sub-document. -/
def c8ParentData : Json :=
  Json.obj
    [("repository", Json.obj [("id", Json.num 42), ("name", Json.str "x")]),
     ("ref", Json.str "refs/heads/main")]

/-- The snapshot record's document after that same push. -/
def c8SnapData : Json :=
  Json.obj [("id", Json.num 42), ("name", Json.str "x")]

/-- A fresh record after pushing only the `_snapshot_id` metadata key. -/
def snapIdOnly : Blob :=
  ((NewBlob "push_event" "1" 0).Push MetadataSnapshotId (Json.str "id")).2

/-- A fresh record after pushing only the `_snapshot_field` metadata key. -/
def onlyFieldBlob : Blob :=
  ((NewBlob "e" "i" 0).Push MetadataSnapshotField (Json.str "f")).2

/-- A record whose snapshot metadata is set but whose document has no
sub-document at `SnapshotField` (so the snapshot id path cannot resolve). -/
def missingIdBlob : Blob :=
  { Data := Json.obj [("repository", Json.obj [("id", Json.num 42)])]
    Id := "1"
    SnapshotId := "id"
    SnapshotField := "missing"
    Timestamp := 3
    type_ := "push_event" }

/-! ### Supporting lemmas -/

theorem objLookup_objSet (fs : List (String × Json)) (k : String) (v : Json) :
    objLookup (objSet fs k v) k = some v := by
  induction fs with
  | nil => simp [objSet, objLookup]
  | cons p rest ih =>
    obtain ⟨k0, w⟩ := p
    by_cases h : k0 = k
    · simp [objSet, objLookup, h]
    · simp [objSet, objLookup, h, ih]

theorem getPath_setPath (branch : List String) (j v : Json)
    (h : branch ≠ []) : (j.setPath branch v).getPath branch = v := by
  induction branch generalizing j with
  | nil => cases h rfl
  | cons k rest ih =>
    cases rest with
    | nil =>
      simp [Json.setPath, Json.getPath, Json.get, objLookup_objSet]
    | cons k2 rest2 =>
      simp only [Json.setPath, Json.getPath, Json.get, objLookup_objSet]
      exact ih _ (by simp)

theorem checkGet_setPath_head (j : Json) (k : String) (rest : List String)
    (v : Json) : ((j.setPath (k :: rest) v).checkGet k).isSome = true := by
  cases rest <;> simp [Json.setPath, Json.checkGet, objLookup_objSet]

theorem splitDotChars_ne_nil (l : List Char) : splitDotChars l ≠ [] := by
  induction l with
  | nil => simp [splitDotChars]
  | cons c rest ih =>
    by_cases h : c = '.'
    · simp [splitDotChars, h]
    · simp only [splitDotChars, h, if_false]
      cases hs : splitDotChars rest with
      | nil => simp
      | cons g gs => simp

theorem goSplitDot_ne_nil (s : String) : goSplitDot s ≠ [] := by
  unfold goSplitDot
  intro h
  exact splitDotChars_ne_nil s.data (List.map_eq_nil_iff.mp h)

theorem getPath_null (p : List String) : Json.null.getPath p = Json.null := by
  induction p with
  | nil => rfl
  | cons k rest ih => simpa [Json.getPath, Json.get] using ih

theorem getPathOpt_none_getPath (p : List String) (j : Json)
    (h : j.getPathOpt p = none) : j.getPath p = Json.null := by
  induction p generalizing j with
  | nil => cases h
  | cons k rest ih =>
    rw [Json.getPath]
    cases hc : j.checkGet k with
    | none =>
      have hg : j.get k = Json.null := by
        cases j <;> simp_all [Json.checkGet, Json.get]
      rw [hg, getPath_null]
    | some w =>
      have hg : j.get k = w := by
        cases j <;> simp_all [Json.checkGet, Json.get]
      rw [hg]
      exact ih w (by rw [Json.getPathOpt, hc] at h; exact h)

/-- The shape of a present snapshot: unfolding `Blob.Snapshot` when both
snapshot metadata fields are non-empty. -/
theorem snapshot_some (b : Blob)
    (h1 : b.SnapshotId ≠ "") (h2 : b.SnapshotField ≠ "") :
    b.Snapshot = some
      { Data := b.Data.get b.SnapshotField
        Id := goFormat
          ((b.Data.get b.SnapshotField).getPath (goSplitDot b.SnapshotId))
        SnapshotId := ""
        SnapshotField := ""
        Timestamp := b.Timestamp
        type_ := b.type_ } := by
  unfold Blob.Snapshot
  rw [if_neg (not_or.mpr ⟨h1, h2⟩)]

/-- A present snapshot's document is the `SnapshotField` sub-attribute of
the source's document. -/
theorem snapshot_data_eq (b snap : Blob) (hs : b.Snapshot = some snap) :
    snap.Data = b.Data.get b.SnapshotField := by
  unfold Blob.Snapshot at hs
  by_cases h : b.SnapshotId = "" ∨ b.SnapshotField = ""
  · rw [if_pos h] at hs; cases hs
  · rw [if_neg h] at hs
    injection hs with h'
    subst h'
    rfl

theorem setPath_singleton (j : Json) (k : String) (v : Json) :
    j.setPath [k] v = Json.obj (objSet j.objFieldsOr k v) := rfl

/-- Setting `k :: p` when the value at `k` is already an object descends
into that object. -/
theorem setPath_cons_of_get_obj (j : Json) (k : String) (p : List String)
    (v : Json) (fs : List (String × Json)) (hp : p ≠ [])
    (hg : j.get k = Json.obj fs) :
    j.setPath (k :: p) v =
      Json.obj (objSet j.objFieldsOr k ((Json.obj fs).setPath p v)) := by
  cases p with
  | nil => cases hp rfl
  | cons a q =>
    cases j with
    | obj flds =>
      cases hl : objLookup flds k with
      | none => rw [Json.get, hl] at hg; cases hg
      | some w =>
        rw [Json.get, hl] at hg
        subst hg
        simp [Json.setPath, Json.objFieldsOr, hl]
    | null => exact Json.noConfusion hg
    | bool x => exact Json.noConfusion hg
    | num n => exact Json.noConfusion hg
    | str s => exact Json.noConfusion hg
    | arr xs => exact Json.noConfusion hg

/-- `pushSpecialAttribute` with a key other than the two snapshot keys
never changes the snapshot metadata fields. -/
theorem push_snapshot_frame (b : Blob) (key : String) (value : Json)
    (h1 : key ≠ MetadataSnapshotId) (h2 : key ≠ MetadataSnapshotField) :
    (b.Push key value).2.SnapshotId = b.SnapshotId ∧
    (b.Push key value).2.SnapshotField = b.SnapshotField := by
  unfold Blob.Push Blob.pushSpecialAttribute
  by_cases hu : startsWithUnderscore key
  · rw [if_pos hu]
    by_cases ht : key = MetadataType
    · simp only [ht, if_true]
      cases value <;> simp
    · simp only [ht, h1, h2, if_false]
      simp
  · rw [if_neg hu]
    exact ⟨rfl, rfl⟩

/-! ### Claims -/

/-- C1: for every Record with non-empty `snapshotIdPath` and non-empty
`snapshotFieldPath`, `snapshot()` returns a new Record whose document is
the sub-document of the source document at `SnapshotField`, whose id is
the canonical (`%v`) string form of the value found at the dotted
`SnapshotId` path inside that extracted sub-document, and whose kind and
timestamp equal the source Record's kind and timestamp. -/
theorem C1_snapshot_shape (b : Blob)
    (h1 : b.SnapshotId ≠ "") (h2 : b.SnapshotField ≠ "") :
    b.Snapshot = some
      { Data := b.Data.get b.SnapshotField
        Id := goFormat
          ((b.Data.get b.SnapshotField).getPath (goSplitDot b.SnapshotId))
        SnapshotId := ""
        SnapshotField := ""
        Timestamp := b.Timestamp
        type_ := b.type_ } :=
  snapshot_some b h1 h2

/-- C1 witness: the spec's push_event scenario, evaluated concretely —
the snapshot has document `\x7b"id":42\x7d`, id `"42"`, kind
`"push_event"` and the source's timestamp. -/
theorem C1_snapshot_shape_witness :
    pushEventBlob.SnapshotId ≠ "" ∧ pushEventBlob.SnapshotField ≠ "" ∧
    pushEventBlob.Snapshot = some pushEventSnap :=
  ⟨by decide, by decide,
    (C1_snapshot_shape pushEventBlob (by decide) (by decide)).trans (by rfl)⟩

/-- C2: pushing a reserved-prefixed key that is not one of the three
metadata keys fails with the unknown-metadata-key error and leaves the
Record completely unmodified. -/
theorem C2_unknown_reserved_key (b : Blob) (key : String) (value : Json)
    (hu : startsWithUnderscore key = true)
    (h1 : key ≠ MetadataType) (h2 : key ≠ MetadataSnapshotId)
    (h3 : key ≠ MetadataSnapshotField) :
    b.Push key value = (some (PushError.unknownMetadataKey key), b) := by
  simp [Blob.Push, Blob.pushSpecialAttribute, hu, h1, h2, h3]

/-- C2 witness: pushing `_unknown` on a fresh record. -/
theorem C2_unknown_reserved_key_witness :
    startsWithUnderscore "_unknown" = true ∧
    (NewBlob "e" "i" 0).Push "_unknown" (Json.str "x") =
      (some (PushError.unknownMetadataKey "_unknown"), NewBlob "e" "i" 0) :=
  ⟨rfl, C2_unknown_reserved_key _ _ _ rfl (by decide) (by decide) (by decide)⟩

/-- C3: pushing any of the three recognized reserved metadata keys with a
non-string value fails with the invalid-metadata-value-type error and
leaves the Record completely unmodified. -/
theorem C3_reserved_nonstring (b : Blob) (key : String) (value : Json)
    (hk : key = MetadataType ∨ key = MetadataSnapshotId ∨
      key = MetadataSnapshotField)
    (hv : ∀ s : String, value ≠ Json.str s) :
    b.Push key value = (some (PushError.invalidMetadataValueType key), b) := by
  rcases hk with h | h | h <;> subst h <;>
    cases value <;> first
      | rfl
      | exact absurd rfl (hv _)

/-- C3 witness: pushing `_type` with the number 3. -/
theorem C3_reserved_nonstring_witness :
    (NewBlob "e" "i" 0).Push "_type" (Json.num 3) =
      (some (PushError.invalidMetadataValueType "_type"), NewBlob "e" "i" 0) :=
  C3_reserved_nonstring _ _ _ (Or.inl rfl) (fun _ h => Json.noConfusion h)

/-- C4: pushing a key without the reserved prefix always succeeds; the
document value at the dotted path obtained by splitting the key on `.`
then equals the pushed value, and `HasAttribute` reports the resulting
top-level key present. -/
theorem C4_ordinary_push (b : Blob) (key : String) (value : Json)
    (h : startsWithUnderscore key = false) :
    (b.Push key value).1 = none ∧
    (b.Push key value).2.Data.getPath (goSplitDot key) = value ∧
    (b.Push key value).2.HasAttribute ((goSplitDot key).headD "") = true := by
  have hne := goSplitDot_ne_nil key
  unfold Blob.Push
  rw [if_neg (by simp [h])]
  refine ⟨rfl, getPath_setPath _ _ _ hne, ?_⟩
  cases hsp : goSplitDot key with
  | nil => exact absurd hsp hne
  | cons k rest =>
    simp only [hsp, List.headD_cons]
    unfold Blob.HasAttribute
    exact checkGet_setPath_head _ _ _ _

/-- C4 witness: pushing `a.b = 3` on a fresh record. -/
theorem C4_ordinary_push_witness :
    startsWithUnderscore "a.b" = false ∧
    ((NewBlob "e" "i" 0).Push "a.b" (Json.num 3)).1 = none ∧
    ((NewBlob "e" "i" 0).Push "a.b" (Json.num 3)).2.Data.getPath
      (goSplitDot "a.b") = Json.num 3 ∧
    ((NewBlob "e" "i" 0).Push "a.b" (Json.num 3)).2.HasAttribute
      ((goSplitDot "a.b").headD "") = true :=
  ⟨rfl, C4_ordinary_push _ _ _ rfl⟩

/-- C5: pushing each recognized reserved metadata key with a string value
succeeds and only overwrites the corresponding metadata field — in
particular the document is untouched. -/
theorem C5_reserved_string_push (b : Blob) (s : String) :
    b.Push MetadataType (Json.str s) = (none, { b with type_ := s }) ∧
    b.Push MetadataSnapshotId (Json.str s) =
      (none, { b with SnapshotId := s }) ∧
    b.Push MetadataSnapshotField (Json.str s) =
      (none, { b with SnapshotField := s }) :=
  ⟨rfl, rfl, rfl⟩

/-- C6: `Snapshot` returns `none` whenever either snapshot metadata field
is empty. -/
theorem C6_snapshot_none (b : Blob)
    (h : b.SnapshotId = "" ∨ b.SnapshotField = "") :
    b.Snapshot = none := by
  unfold Blob.Snapshot
  rw [if_pos h]

/-- C6 witness: all three combinations with at least one empty snapshot
metadata field — both empty, only `SnapshotId` set, only `SnapshotField`
set. -/
theorem C6_snapshot_none_witness :
    (NewBlob "e" "i" 0).Snapshot = none ∧
    snapIdOnly.Snapshot = none ∧
    onlyFieldBlob.Snapshot = none :=
  ⟨C6_snapshot_none _ (Or.inl rfl), C6_snapshot_none _ (Or.inr rfl),
    C6_snapshot_none _ (Or.inl rfl)⟩

/-- C7 counterexample: pushing only the `_snapshot_id` metadata key on a
fresh record reaches, via construction followed by one push, a record
whose `SnapshotId` is non-empty while `SnapshotField` is empty — the
both-empty-or-both-non-empty invariant fails on a reachable record. -/
theorem C7_counterexample :
    Reachable snapIdOnly ∧ ¬ bothOrNeither snapIdOnly :=
  ⟨Reachable.push (NewBlob "push_event" "1" 0) MetadataSnapshotId
      (Json.str "id") (Reachable.new "push_event" "1" 0),
    by decide⟩

/-- C7 amended: the pairing invariant on the snapshot metadata fields
holds for freshly constructed Records and is preserved by every push
whose key is not one of the two snapshot metadata keys; a push of a
single snapshot metadata key can break it. -/
theorem C7_amended_inv (event id : String) (json : Json) (now : Nat)
    (b : Blob) (key : String) (value : Json) (hb : bothOrNeither b)
    (h1 : key ≠ MetadataSnapshotId) (h2 : key ≠ MetadataSnapshotField) :
    bothOrNeither (NewBlob event id now) ∧
    bothOrNeither (NewBlobFromJson event id json now) ∧
    bothOrNeither (b.Push key value).2 := by
  refine ⟨Or.inl ⟨rfl, rfl⟩, Or.inl ⟨rfl, rfl⟩, ?_⟩
  obtain ⟨hid, hf⟩ := push_snapshot_frame b key value h1 h2
  unfold bothOrNeither at hb ⊢
  rw [hid, hf]
  exact hb

/-- C7 amended witness: a fresh record, a parse-free construction and a
`_type` push all keep the invariant. -/
theorem C7_amended_inv_witness :
    bothOrNeither (NewBlob "e" "i" 0) ∧
    bothOrNeither (NewBlobFromJson "e" "i" (Json.obj []) 0) ∧
    bothOrNeither ((NewBlob "e" "i" 0).Push "_type" (Json.str "issue")).2 :=
  C7_amended_inv "e" "i" (Json.obj []) 0 (NewBlob "e" "i" 0) "_type"
    (Json.str "issue") (Or.inl ⟨rfl, rfl⟩) (by decide) (by decide)

/-- C8 counterexample: on the push_event record, pushing `name = "x"` on
the freshly derived snapshot record mutates the shared underlying map, so
the parent record's document changes as well — the two documents are not
independent. -/
theorem C8_counterexample :
    snapshotThenPushSnap pushEventBlob "name" (Json.str "x") =
      some (c8ParentData, c8SnapData) ∧
    c8ParentData ≠ pushEventBlob.Data :=
  ⟨rfl, fun h => by
    have h2 := congrArg (fun j => j.getPath ["repository", "name"]) h
    exact Json.noConfusion (show Json.str "x" = Json.null from h2)⟩

/-- C8 amended: the snapshot's document aliases the parent's sub-document
rather than being independent.  When the extracted sub-document is a JSON
object, an ordinary push on the snapshot record is reflected inside the
parent's document at `SnapshotField` (the parent document becomes a
`setPath` along the combined path); only when the extracted value is not
an object does the parent document stay unchanged. -/
theorem C8_amended_aliasing (b snap : Blob) (key : String) (value : Json)
    (hs : b.Snapshot = some snap) (hk : startsWithUnderscore key = false) :
    (∀ fs, snap.Data = Json.obj fs →
      snapshotThenPushSnap b key value =
        some (b.Data.setPath (b.SnapshotField :: goSplitDot key) value,
              snap.Data.setPath (goSplitDot key) value)) ∧
    ((∀ fs, snap.Data ≠ Json.obj fs) →
      snapshotThenPushSnap b key value =
        some (b.Data, snap.Data.setPath (goSplitDot key) value)) := by
  have hdata := snapshot_data_eq b snap hs
  unfold snapshotThenPushSnap
  rw [hs, Option.map_some']
  rw [if_neg (by simp [hk])]
  constructor
  · intro fs hobj
    have hg : b.Data.get b.SnapshotField = Json.obj fs := by
      rw [← hdata]; exact hobj
    rw [setPath_cons_of_get_obj b.Data b.SnapshotField (goSplitDot key)
      value fs (goSplitDot_ne_nil key) hg, ← setPath_singleton]
    rw [hobj]
  · intro hno
    cases hd : snap.Data with
    | obj fs => exact absurd hd (hno fs)
    | null => rfl
    | bool x => rfl
    | num n => rfl
    | str s => rfl
    | arr xs => rfl

/-- C8 amended witness: the push_event scenario — pushing `name = "x"` on
the snapshot rewrites the parent document at `repository.name`. -/
theorem C8_amended_aliasing_witness :
    snapshotThenPushSnap pushEventBlob "name" (Json.str "x") =
      some (pushEventBlob.Data.setPath ("repository" :: goSplitDot "name")
              (Json.str "x"),
            pushEventSnap.Data.setPath (goSplitDot "name") (Json.str "x")) :=
  (C8_amended_aliasing pushEventBlob pushEventSnap "name" (Json.str "x")
    rfl rfl).1 [("id", Json.num 42)] rfl

/-- C9: `NewBlobFromPayload` fails (returning no record) exactly when the
payload does not decode, and on success returns the record
`NewBlobFromJson` builds from the decoded document — same document, id
and kind. -/
theorem C9_payload (event id payload : String) (now : Nat) :
    (parseJson payload = none →
      NewBlobFromPayload event id payload now = none) ∧
    (∀ d, parseJson payload = some d →
      NewBlobFromPayload event id payload now =
        some (NewBlobFromJson event id d now)) := by
  constructor
  · intro h
    unfold NewBlobFromPayload
    rw [h]
  · intro d h
    unfold NewBlobFromPayload
    rw [h]

/-- C9 witness: the malformed payload `\x7bnot json` yields no record,
and a well-formed payload yields the `NewBlobFromJson` record of its
decoded document. -/
theorem C9_payload_witness :
    NewBlobFromPayload "push_event" "1" "\x7bnot json" 0 = none ∧
    NewBlobFromPayload "push_event" "1" "\x7b\"a\": 1\x7d" 0 =
      some (NewBlobFromJson "push_event" "1"
        (Json.obj [("a", Json.num 1)]) 0) :=
  ⟨(C9_payload "push_event" "1" "\x7bnot json" 0).1 rfl,
    (C9_payload "push_event" "1" "\x7b\"a\": 1\x7d" 0).2
      (Json.obj [("a", Json.num 1)]) rfl⟩

/-- C10: with both snapshot metadata fields non-empty but the dotted
`SnapshotId` path not resolving to any value inside the extracted
sub-document (including when that sub-document is absent), `Snapshot`
still returns a record, and its id is the five-character string
`"<nil>"`. -/
theorem C10_missing_id (b : Blob)
    (h1 : b.SnapshotId ≠ "") (h2 : b.SnapshotField ≠ "")
    (h3 : (b.Data.get b.SnapshotField).getPathOpt
      (goSplitDot b.SnapshotId) = none) :
    (b.Snapshot).map Blob.Id = some "<nil>" := by
  have h4 := getPathOpt_none_getPath _ _ h3
  rw [snapshot_some b h1 h2, Option.map_some']
  show some (goFormat ((b.Data.get b.SnapshotField).getPath
    (goSplitDot b.SnapshotId))) = some "<nil>"
  rw [h4]
  rfl

/-- C10 witness: a record whose `SnapshotField` is absent from the
document; the derived id is `"<nil>"`. -/
theorem C10_missing_id_witness :
    missingIdBlob.SnapshotId ≠ "" ∧ missingIdBlob.SnapshotField ≠ "" ∧
    (missingIdBlob.Data.get missingIdBlob.SnapshotField).getPathOpt
      (goSplitDot missingIdBlob.SnapshotId) = none ∧
    (missingIdBlob.Snapshot).map Blob.Id = some "<nil>" :=
  ⟨by decide, by decide, rfl, C10_missing_id _ (by decide) (by decide) rfl⟩

end Voss
